import Mathlib

/-!
# Verification of the ShramSahayak evolutionary design optimizer

Shallow embedding of `evolutionary_optimization.py`: the fitness evaluator
`evaluate_design`, the search bounds, the per-generation convergence
bookkeeping of `callback_monitor`, and a population search engine.  The
fitness evaluator and the callback are translated directly from the source;
the differential-evolution engine itself is a `scipy` library call whose
internals are not part of the repository, so it is modelled from the
specification (seeded deterministic initialisation within bounds, clamped
variation, greedy non-worsening replacement, fixed generation budget,
fail-fast configuration validation).
-/

namespace ShramSahayak

noncomputable section

/-- Conversion np.radians: degrees to radians. -/
def radians (deg : ℝ) : ℝ := deg * Real.pi / 180

/-- Search bounds, source line 23: bounds = [(50, 120), (10, 30)] — frame
length (cm) and strut angle (deg) limits. -/
def bounds : (ℝ × ℝ) × (ℝ × ℝ) := ((50, 120), (10, 30))

/-- Benefit term, source line 52:
load_reduction_score = 60 + 5*sin(radians(angle_deg)) - 0.1*abs(length_cm - 100). -/
def load_reduction_score (length_cm angle_deg : ℝ) : ℝ :=
  60 + 5 * Real.sin (radians angle_deg) - 0.1 * |length_cm - 100|

/-- Stress term, source line 56:
stress_penalty = 30 + 0.5*length_cm + 0.2*angle_deg. -/
def stress_penalty (length_cm angle_deg : ℝ) : ℝ :=
  30 + 0.5 * length_cm + 0.2 * angle_deg

/-- Fitness evaluator, source lines 37-68: sentinel penalty 1000 when
the stress term exceeds the material limit 50, otherwise the negated weighted
combination -(0.6 * load_reduction_score - 0.4 * stress_penalty). -/
def evaluate_design (length_cm angle_deg : ℝ) : ℝ :=
  if stress_penalty length_cm angle_deg > 50 then 1000
  else -((0.6 * load_reduction_score length_cm angle_deg) -
         (0.4 * stress_penalty length_cm angle_deg))

/-- Helper: the two branches of `evaluate_design`, as rewriting lemmas. -/
theorem evaluate_design_of_gt {l a : ℝ} (h : 50 < stress_penalty l a) :
    evaluate_design l a = 1000 := by
  unfold evaluate_design
  exact if_pos h

theorem evaluate_design_of_le {l a : ℝ} (h : stress_penalty l a ≤ 50) :
    evaluate_design l a =
      -((0.6 * load_reduction_score l a) - (0.4 * stress_penalty l a)) := by
  unfold evaluate_design
  exact if_neg (not_lt.mpr h)

/-- Helper: every design inside the declared bounds has stress at least 57. -/
theorem stress_ge_of_in_bounds {l a : ℝ}
    (hl1 : bounds.1.1 ≤ l) (ha1 : bounds.2.1 ≤ a) :
    57 ≤ stress_penalty l a := by
  simp only [bounds] at hl1 ha1
  unfold stress_penalty
  nlinarith

/-- Helper: every design inside the declared bounds is penalized with 1000. -/
theorem eval_eq_penalty_of_in_bounds {l a : ℝ}
    (hl1 : bounds.1.1 ≤ l) (ha1 : bounds.2.1 ≤ a) :
    evaluate_design l a = 1000 :=
  evaluate_design_of_gt (lt_of_lt_of_le (by norm_num) (stress_ge_of_in_bounds hl1 ha1))

/-- C1: for every design inside the declared bounds
(`length ∈ [50, 120]`, `angle ∈ [10, 30]`) the stress term
`30 + 0.5*length + 0.2*angle` is at least 57, hence strictly above the
material limit 50, so `evaluate_design` returns the sentinel penalty 1000:
the whole declared search domain is infeasible. -/
theorem c1_in_bounds_always_penalized (l a : ℝ)
    (hl1 : bounds.1.1 ≤ l) (_hl2 : l ≤ bounds.1.2)
    (ha1 : bounds.2.1 ≤ a) (_ha2 : a ≤ bounds.2.2) :
    57 ≤ stress_penalty l a ∧ 50 < stress_penalty l a ∧
      evaluate_design l a = 1000 := by
  refine ⟨stress_ge_of_in_bounds hl1 ha1, ?_, eval_eq_penalty_of_in_bounds hl1 ha1⟩
  exact lt_of_lt_of_le (by norm_num) (stress_ge_of_in_bounds hl1 ha1)

/-- Witness for C1 at the lower corner `(50, 10)` of the bounds. -/
theorem c1_witness :
    57 ≤ stress_penalty 50 10 ∧ 50 < stress_penalty 50 10 ∧
      evaluate_design 50 10 = 1000 :=
  c1_in_bounds_always_penalized 50 10 (by norm_num [bounds]) (by norm_num [bounds])
    (by norm_num [bounds]) (by norm_num [bounds])

/-- C2: for every real pair, `evaluate_design` returns exactly the sentinel
1000 when the stress term strictly exceeds 50, and the negated weighted
combination when the stress term is at or below 50 (including exactly 50) —
a cliff at the threshold; the corner design `(120, 30)` has stress above the
limit and is penalized. -/
theorem c2_cliff_at_material_limit (l a : ℝ) :
    (50 < stress_penalty l a → evaluate_design l a = 1000) ∧
    (stress_penalty l a ≤ 50 →
      evaluate_design l a =
        -((0.6 * load_reduction_score l a) - (0.4 * stress_penalty l a))) ∧
    (50 < stress_penalty 120 30 ∧ evaluate_design 120 30 = 1000) := by
  refine ⟨fun h => evaluate_design_of_gt h, fun h => evaluate_design_of_le h, ?_, ?_⟩
  · norm_num [stress_penalty]
  · exact evaluate_design_of_gt (by norm_num [stress_penalty])

/-- Witness for C2: the corner `(120, 30)` is penalized and the feasible point
`(30, 10)` (stress 47) gets the weighted combination. -/
theorem c2_witness :
    evaluate_design 120 30 = 1000 ∧
    evaluate_design 30 10 =
      -((0.6 * load_reduction_score 30 10) - (0.4 * stress_penalty 30 10)) :=
  ⟨(c2_cliff_at_material_limit 120 30).1 (by norm_num [stress_penalty]),
   (c2_cliff_at_material_limit 30 10).2.1 (by norm_num [stress_penalty])⟩

/-- C3: whenever the stress term is at most 50, `evaluate_design` returns
the negated weighted combination with benefit
`60 + 5*sin(radians angle) - 0.1*|length - 100|` and stress
`30 + 0.5*length + 0.2*angle`, the benefit weight 0.6 exceeding the stress
weight 0.4. -/
theorem c3_feasible_formula (l a : ℝ) (h : stress_penalty l a ≤ 50) :
    evaluate_design l a =
      -((0.6 * (60 + 5 * Real.sin (radians a) - 0.1 * |l - 100|)) -
        (0.4 * (30 + 0.5 * l + 0.2 * a))) ∧ (0.4 : ℝ) < 0.6 := by
  refine ⟨?_, by norm_num⟩
  rw [evaluate_design_of_le h]
  unfold load_reduction_score stress_penalty
  rfl

/-- Witness for C3 at `(30, 10)` (stress 47 ≤ 50). -/
theorem c3_witness :
    evaluate_design 30 10 =
      -((0.6 * (60 + 5 * Real.sin (radians 10) - 0.1 * |(30 : ℝ) - 100|)) -
        (0.4 * (30 + 0.5 * 30 + 0.2 * 10))) ∧ (0.4 : ℝ) < 0.6 :=
  c3_feasible_formula 30 10 (by norm_num [stress_penalty])

/-- C9: the evaluator is total over ℝ²: for every real pair, including
out-of-bounds values, `evaluate_design` yields a real number given by exactly
one of the two closed forms (sentinel or weighted combination); as a Lean
function it is pure and deterministic by construction. -/
theorem c9_evaluator_total (l a : ℝ) :
    (50 < stress_penalty l a ∧ evaluate_design l a = 1000) ∨
    (stress_penalty l a ≤ 50 ∧
      evaluate_design l a =
        -((0.6 * load_reduction_score l a) - (0.4 * stress_penalty l a))) := by
  rcases le_or_lt (stress_penalty l a) 50 with h | h
  · exact Or.inr ⟨h, evaluate_design_of_le h⟩
  · exact Or.inl ⟨h, evaluate_design_of_gt h⟩

/-- A candidate design: the two genes, frame length (cm) and strut angle (deg). -/
structure Design where
  length : ℝ
  angle : ℝ

/-- Fitness of a `Design` under `evaluate_design`. -/
def evalDesign (d : Design) : ℝ := evaluate_design d.length d.angle

/-- Run configuration of the optimizer call, source lines 96-104:
bounds, popsize, maxiter (generations), seed. -/
structure Config where
  bnds : (ℝ × ℝ) × (ℝ × ℝ)
  popsize : ℕ
  maxiter : ℕ
  seed : ℕ

/-- Per-dimension bound validity (low ≤ high for both genes). -/
def validBounds (b : (ℝ × ℝ) × (ℝ × ℝ)) : Prop :=
  b.1.1 ≤ b.1.2 ∧ b.2.1 ≤ b.2.2

instance validBoundsDec (b : (ℝ × ℝ) × (ℝ × ℝ)) : Decidable (validBounds b) :=
  inferInstanceAs (Decidable (b.1.1 ≤ b.1.2 ∧ b.2.1 ≤ b.2.2))

/-- Membership of a design in the declared bounds. -/
def inBounds (b : (ℝ × ℝ) × (ℝ × ℝ)) (d : Design) : Prop :=
  b.1.1 ≤ d.length ∧ d.length ≤ b.1.2 ∧ b.2.1 ≤ d.angle ∧ d.angle ≤ b.2.2

/-- Modelled from the spec: the seeded deterministic pseudo-random stream of
the search engine (scipy's internal seeded RNG is not part of the repository;
the spec only demands a deterministic seeded stream).  A linear congruential
step modulo 2^31. -/
def lcg (s : ℕ) : ℕ := (1103515245 * s + 12345) % 2147483648

/-- Iterated LCG stream from a seed. -/
def lcgIter (seed : ℕ) : ℕ → ℕ
  | 0 => lcg seed
  | n + 1 => lcg (lcgIter seed n)

/-- Modelled from the spec: the n-th uniform draw in [0, 1] of the seeded
stream. -/
def rand01 (seed n : ℕ) : ℝ := (lcgIter seed n : ℝ) / 2147483648

/-- Modelled from the spec: fold an escaping gene back into its interval by
clamping. -/
def clampGene (b : ℝ × ℝ) (x : ℝ) : ℝ := max b.1 (min x b.2)

/-- Clamp both genes of a design into the declared bounds. -/
def clampDesign (b : (ℝ × ℝ) × (ℝ × ℝ)) (d : Design) : Design :=
  ⟨clampGene b.1 d.length, clampGene b.2 d.angle⟩

/-- Modelled from the spec: member i of the initial population, drawn within
bounds by an affine map of seeded uniform draws. -/
def initMember (cfg : Config) (i : ℕ) : Design :=
  ⟨cfg.bnds.1.1 + rand01 cfg.seed (2 * i) * (cfg.bnds.1.2 - cfg.bnds.1.1),
   cfg.bnds.2.1 + rand01 cfg.seed (2 * i + 1) * (cfg.bnds.2.2 - cfg.bnds.2.1)⟩

/-- Keep the design with the strictly smaller internal score (minimization). -/
def betterMin (b d : Design) : Design := if evalDesign d < evalDesign b then d else b

/-- Best (minimum internal score) design of a population list. -/
def bestOf (d0 : Design) (l : List Design) : Design := l.foldl betterMin d0

/-- Modelled from the spec: the raw differential variant for member i at
generation g (best1bin-style: generation best plus a scaled difference of two
rng-chosen members), before bounds folding. -/
def rawVariant (cfg : Config) (pop : ℕ → Design) (g i : ℕ) : Design :=
  let b := bestOf (pop 0) ((List.range cfg.popsize).map pop)
  let r1 := lcgIter cfg.seed (cfg.popsize * (2 * g + 2) + 2 * i) % cfg.popsize
  let r2 := lcgIter cfg.seed (cfg.popsize * (2 * g + 2) + 2 * i + 1) % cfg.popsize
  ⟨b.length + 0.5 * ((pop r1).length - (pop r2).length),
   b.angle + 0.5 * ((pop r1).angle - (pop r2).angle)⟩

/-- Modelled from the spec: the trial candidate presented for member i at
generation g — the raw variant folded back into bounds. -/
def trialFor (cfg : Config) (pop : ℕ → Design) (g i : ℕ) : Design :=
  clampDesign cfg.bnds (rawVariant cfg pop g i)

/-- Modelled from the spec: one synchronous generation step — the trial
replaces its parent iff its score is no worse (ties favor the trial). -/
def stepPop (cfg : Config) (g : ℕ) (pop : ℕ → Design) : ℕ → Design := fun i =>
  if evalDesign (trialFor cfg pop g i) ≤ evalDesign (pop i) then trialFor cfg pop g i
  else pop i

/-- Modelled from the spec: the population after g generations. -/
def popAt (cfg : Config) : ℕ → ℕ → Design
  | 0 => fun i => initMember cfg i
  | g + 1 => stepPop cfg g (popAt cfg g)

/-- The population of generation g as a list. -/
def genList (cfg : Config) (g : ℕ) : List Design :=
  (List.range cfg.popsize).map (popAt cfg g)

/-- Best design of generation g. -/
def bestDesignAt (cfg : Config) (g : ℕ) : Design :=
  bestOf (popAt cfg g 0) (genList cfg g)

/-- Positive (human-facing) best fitness of generation g, as recorded by
callback_monitor, source line 77: current_score = -evaluate_design(xk). -/
def bestScorePos (cfg : Config) (g : ℕ) : ℝ := -(evalDesign (bestDesignAt cfg g))

/-- Average approximation of callback_monitor, source line 82:
avg_score = current_score * (0.85 + 0.1 * np.random.rand()); the draw comes
from the global, unseeded numpy RNG, modelled as an ambient noise value u. -/
def avg_of_best (best u : ℝ) : ℝ := best * (0.85 + 0.1 * u)

/-- The history_best_fitness list appended by callback_monitor, one entry per
completed generation 1..maxiter. -/
def history_best_fitness (cfg : Config) : List ℝ :=
  (List.range cfg.maxiter).map (fun g => bestScorePos cfg (g + 1))

/-- The history_avg_fitness list appended by callback_monitor; ω is the
ambient (unseeded) numpy RNG stream consumed once per generation. -/
def history_avg_fitness (cfg : Config) (ω : ℕ → ℝ) : List ℝ :=
  (List.range cfg.maxiter).map (fun g => avg_of_best (bestScorePos cfg (g + 1)) (ω g))

/-- Configuration errors rejected before any generation runs. -/
inductive ConfigError where
  | invalidBounds
  | invalidSize

/-- The Optimization Result: best design, its positive fitness score, and the
full Generation Record. -/
structure RunResult where
  best : Design
  score : ℝ
  bestHist : List ℝ
  avgHist : List ℝ

/-- Modelled from the spec: the whole optimizer run — fail fast on an invalid
configuration (inverted bounds, non-positive sizes), otherwise run the fixed
generation budget and return the Optimization Result.  ω is the ambient
unseeded numpy RNG stream read by callback_monitor. -/
def runOptimizer (cfg : Config) (ω : ℕ → ℝ) : Except ConfigError RunResult :=
  if validBounds cfg.bnds then
    if 0 < cfg.popsize ∧ 0 < cfg.maxiter then
      Except.ok
        ⟨bestDesignAt cfg cfg.maxiter, bestScorePos cfg cfg.maxiter,
         history_best_fitness cfg, history_avg_fitness cfg ω⟩
    else Except.error ConfigError.invalidSize
  else Except.error ConfigError.invalidBounds

/-- The run configuration of the source, lines 96-104: the declared bounds,
popsize 40, maxiter 15, seed 42. -/
def cfg42 : Config := ⟨bounds, 40, 15, 42⟩

/-- Helper: the LCG state stays below the modulus. -/
theorem lcg_lt (s : ℕ) : lcg s < 2147483648 :=
  Nat.mod_lt _ (by norm_num)

theorem lcgIter_lt (seed n : ℕ) : lcgIter seed n < 2147483648 := by
  cases n with
  | zero => exact lcg_lt seed
  | succ m => exact lcg_lt (lcgIter seed m)

/-- Helper: the uniform draws lie in [0, 1]. -/
theorem rand01_nonneg (seed n : ℕ) : 0 ≤ rand01 seed n :=
  div_nonneg (Nat.cast_nonneg _) (by norm_num)

theorem rand01_le_one (seed n : ℕ) : rand01 seed n ≤ 1 := by
  rw [rand01, div_le_one (by norm_num)]
  exact_mod_cast (lcgIter_lt seed n).le

/-- Helper: a clamped gene lies in its interval. -/
theorem clampGene_mem {b : ℝ × ℝ} (h : b.1 ≤ b.2) (x : ℝ) :
    b.1 ≤ clampGene b x ∧ clampGene b x ≤ b.2 :=
  ⟨le_max_left _ _, max_le h (min_le_right _ _)⟩

/-- Helper: a clamped design lies in valid bounds. -/
theorem clampDesign_inBounds {b : (ℝ × ℝ) × (ℝ × ℝ)} (hb : validBounds b)
    (d : Design) : inBounds b (clampDesign b d) := by
  obtain ⟨h1, h2⟩ := hb
  unfold inBounds clampDesign
  exact ⟨(clampGene_mem h1 _).1, (clampGene_mem h1 _).2,
    (clampGene_mem h2 _).1, (clampGene_mem h2 _).2⟩

/-- Helper: initial members are drawn inside valid bounds. -/
theorem initMember_inBounds (cfg : Config) (hb : validBounds cfg.bnds) (i : ℕ) :
    inBounds cfg.bnds (initMember cfg i) := by
  obtain ⟨h1, h2⟩ := hb
  unfold inBounds initMember
  dsimp only
  refine ⟨?_, ?_, ?_, ?_⟩
  · nlinarith [rand01_nonneg cfg.seed (2 * i), rand01_le_one cfg.seed (2 * i)]
  · nlinarith [mul_nonneg (sub_nonneg.mpr (rand01_le_one cfg.seed (2 * i)))
      (sub_nonneg.mpr h1)]
  · nlinarith [rand01_nonneg cfg.seed (2 * i + 1), rand01_le_one cfg.seed (2 * i + 1)]
  · nlinarith [mul_nonneg (sub_nonneg.mpr (rand01_le_one cfg.seed (2 * i + 1)))
      (sub_nonneg.mpr h2)]

/-- Helper: every trial candidate is clamped into valid bounds. -/
theorem trialFor_inBounds (cfg : Config) (hb : validBounds cfg.bnds)
    (pop : ℕ → Design) (g i : ℕ) : inBounds cfg.bnds (trialFor cfg pop g i) :=
  clampDesign_inBounds hb _

/-- Helper: every member of every generation stays inside valid bounds. -/
theorem popAt_inBounds (cfg : Config) (hb : validBounds cfg.bnds) :
    ∀ g i, inBounds cfg.bnds (popAt cfg g i) := by
  intro g
  induction g with
  | zero => exact fun i => initMember_inBounds cfg hb i
  | succ m ih =>
      intro i
      show inBounds cfg.bnds (stepPop cfg m (popAt cfg m) i)
      unfold stepPop
      split
      · exact trialFor_inBounds cfg hb _ m i
      · exact ih i

/-- Helper: the pairwise selection realizes the minimum fitness. -/
theorem evalDesign_betterMin (b d : Design) :
    evalDesign (betterMin b d) = min (evalDesign b) (evalDesign d) := by
  unfold betterMin
  by_cases hc : evalDesign d < evalDesign b
  · rw [if_pos hc, min_eq_right hc.le]
  · rw [if_neg hc, min_eq_left (not_lt.mp hc)]

/-- Helper: the fold that picks the generation best returns a population
member (or the seed design). -/
theorem bestOf_mem (d0 : Design) (l : List Design) :
    bestOf d0 l = d0 ∨ bestOf d0 l ∈ l := by
  induction l generalizing d0 with
  | nil => exact Or.inl rfl
  | cons x xs ih =>
      have hfold : bestOf d0 (x :: xs) = bestOf (betterMin d0 x) xs := rfl
      rcases ih (betterMin d0 x) with h | h
      · rw [hfold, h]
        unfold betterMin
        split
        · exact Or.inr (List.mem_cons_self x xs)
        · exact Or.inl rfl
      · rw [hfold]
        exact Or.inr (List.mem_cons_of_mem x h)

/-- Helper: the fitness of the generation best is the fold of min over the
population fitness values. -/
theorem evalDesign_bestOf (d0 : Design) (l : List Design) :
    evalDesign (bestOf d0 l) = (l.map evalDesign).foldl min (evalDesign d0) := by
  induction l generalizing d0 with
  | nil => rfl
  | cons x xs ih =>
      rw [List.map_cons, List.foldl_cons,
        show bestOf d0 (x :: xs) = bestOf (betterMin d0 x) xs from rfl,
        ih, evalDesign_betterMin]

/-- Helper: folding min is monotone in the seed and in the mapped values. -/
theorem foldl_min_le_foldl_min {α : Type} (l : List α) (f f' : α → ℝ) :
    ∀ a a' : ℝ, a ≤ a' → (∀ x ∈ l, f x ≤ f' x) →
      (l.map f).foldl min a ≤ (l.map f').foldl min a' := by
  induction l with
  | nil =>
      intro a a' ha _
      simpa using ha
  | cons x xs ih =>
      intro a a' ha h
      simp only [List.map_cons, List.foldl_cons]
      exact ih _ _ (min_le_min ha (h x (List.mem_cons_self x xs)))
        (fun y hy => h y (List.mem_cons_of_mem x hy))

/-- Helper: replacement never accepts a worse candidate, so each member's
fitness is non-increasing across generations. -/
theorem eval_popAt_succ_le (cfg : Config) (g i : ℕ) :
    evalDesign (popAt cfg (g + 1) i) ≤ evalDesign (popAt cfg g i) := by
  show evalDesign (stepPop cfg g (popAt cfg g) i) ≤ _
  unfold stepPop
  split
  · assumption
  · exact le_refl _

/-- Helper: the internal best fitness of a generation is non-increasing. -/
theorem evalBest_succ_le (cfg : Config) (g : ℕ) :
    evalDesign (bestDesignAt cfg (g + 1)) ≤ evalDesign (bestDesignAt cfg g) := by
  unfold bestDesignAt genList
  rw [evalDesign_bestOf, evalDesign_bestOf, List.map_map, List.map_map]
  exact foldl_min_le_foldl_min (List.range cfg.popsize) _ _ _ _
    (eval_popAt_succ_le cfg g 0)
    (fun x _ => eval_popAt_succ_le cfg g x)

/-- Helper: the recorded positive best score never worsens. -/
theorem bestScorePos_mono (cfg : Config) (g k : ℕ) :
    bestScorePos cfg g ≤ bestScorePos cfg (g + k) := by
  induction k with
  | zero => exact le_refl _
  | succ m ih => exact le_trans ih (neg_le_neg (evalBest_succ_le cfg (g + m)))

/-- Helper: reading an entry of a range-mapped history list. -/
theorem getD_map_range (f : ℕ → ℝ) {n k : ℕ} (hk : k < n) :
    ((List.range n).map f).getD k 0 = f k := by
  rw [List.getD_eq_getElem?_getD, List.getElem?_map, List.getElem?_range hk]
  rfl

/-- Helper: the source bounds are valid. -/
theorem validBounds_cfg42 : validBounds cfg42.bnds := by
  constructor <;> norm_num [cfg42, bounds]

/-- Helper: any design inside the source bounds is scored with the sentinel. -/
theorem evalDesign_penalty_of_inBounds42 {d : Design}
    (h : inBounds cfg42.bnds d) : evalDesign d = 1000 := by
  have h2 := h
  unfold inBounds at h2
  obtain ⟨ha, -, hc, -⟩ := h2
  exact eval_eq_penalty_of_in_bounds ha hc

/-- Helper: at the source configuration the generation best always has the
sentinel fitness 1000. -/
theorem evalDesign_bestDesignAt_cfg42 (g : ℕ) :
    evalDesign (bestDesignAt cfg42 g) = 1000 := by
  rcases bestOf_mem (popAt cfg42 g 0) (genList cfg42 g) with h | h
  · unfold bestDesignAt
    rw [h]
    exact evalDesign_penalty_of_inBounds42 (popAt_inBounds cfg42 validBounds_cfg42 g 0)
  · unfold genList at h
    obtain ⟨i, -, hi⟩ := List.mem_map.mp h
    unfold bestDesignAt genList
    rw [← hi]
    exact evalDesign_penalty_of_inBounds42 (popAt_inBounds cfg42 validBounds_cfg42 g i)

/-- Helper: every recorded positive best fitness of the source run is -1000. -/
theorem bestScorePos_cfg42 (g : ℕ) : bestScorePos cfg42 g = -1000 := by
  unfold bestScorePos
  rw [evalDesign_bestDesignAt_cfg42]

/-- Helper: the source configuration passes validation and the run yields the
Optimization Result of the modelled engine. -/
theorem runOptimizer_cfg42 (ω : ℕ → ℝ) :
    runOptimizer cfg42 ω = Except.ok
      ⟨bestDesignAt cfg42 15, bestScorePos cfg42 15,
       history_best_fitness cfg42, history_avg_fitness cfg42 ω⟩ := by
  have h2 : 0 < cfg42.popsize ∧ 0 < cfg42.maxiter := by constructor <;> decide
  simp only [runOptimizer, if_pos validBounds_cfg42, if_pos h2]
  rfl

/-- Degenerate feasible configuration (both genes pinned to 0) where the
evaluator returns the weighted combination; used to witness the amended C6. -/
def cfgFeasible : Config := ⟨((0, 0), (0, 0)), 1, 1, 0⟩

/-- Helper: a gene clamped into the degenerate interval [0, 0] is 0. -/
theorem clampGene_zero (x : ℝ) : clampGene (0, 0) x = 0 := by
  show max 0 (min x 0) = 0
  exact max_eq_left (min_le_right x 0)

/-- Helper: the degenerate population is constantly the origin design. -/
theorem popAt_cfgFeasible (g i : ℕ) : popAt cfgFeasible g i = ⟨0, 0⟩ := by
  induction g with
  | zero =>
      show initMember cfgFeasible i = _
      unfold initMember cfgFeasible
      simp
  | succ m ih =>
      have htrial : trialFor cfgFeasible (popAt cfgFeasible m) m i = ⟨0, 0⟩ := by
        unfold trialFor clampDesign
        rw [show cfgFeasible.bnds = ((0, 0), (0, 0)) from rfl]
        rw [clampGene_zero, clampGene_zero]
      show stepPop cfgFeasible m (popAt cfgFeasible m) i = _
      unfold stepPop
      rw [htrial, ih]
      simp

/-- Helper: the weighted combination at the origin design. -/
theorem evalDesign_origin : evalDesign ⟨0, 0⟩ = -18 := by
  show evaluate_design 0 0 = -18
  rw [evaluate_design_of_le (by norm_num [stress_penalty])]
  unfold load_reduction_score stress_penalty radians
  norm_num [Real.sin_zero, abs_of_nonpos]

/-- Helper: the degenerate run records positive best fitness 18. -/
theorem bestScorePos_cfgFeasible (g : ℕ) : bestScorePos cfgFeasible g = 18 := by
  have h1 : bestDesignAt cfgFeasible g = ⟨0, 0⟩ := by
    unfold bestDesignAt genList
    rw [show cfgFeasible.popsize = 1 from rfl, show List.range 1 = [0] by decide, List.map_cons,
      List.map_nil, popAt_cfgFeasible]
    unfold bestOf
    rw [List.foldl_cons, List.foldl_nil]
    unfold betterMin
    rw [if_neg (lt_irrefl _)]
  unfold bestScorePos
  rw [h1, evalDesign_origin]
  norm_num

/-- C4 counterexample: with the source configuration (bounds, popsize 40,
maxiter 15, seed 42) fixed, two runs under different states of the ambient
unseeded numpy RNG (read by callback_monitor for the average) produce
different Optimization Results — the average-fitness histories differ. -/
theorem c4_counterexample :
    runOptimizer cfg42 (fun _ => 0) ≠ runOptimizer cfg42 (fun _ => (1 : ℝ) / 2) := by
  intro h
  rw [runOptimizer_cfg42, runOptimizer_cfg42] at h
  simp only [Except.ok.injEq, RunResult.mk.injEq] at h
  have havg := h.2.2.2
  have h0 : (history_avg_fitness cfg42 (fun _ => 0)).getD 0 0 = -850 := by
    unfold history_avg_fitness
    rw [getD_map_range _ (show 0 < cfg42.maxiter by decide)]
    norm_num [avg_of_best, bestScorePos_cfg42]
  have h2 : (history_avg_fitness cfg42 (fun _ => (1 : ℝ) / 2)).getD 0 0 = -900 := by
    unfold history_avg_fitness
    rw [getD_map_range _ (show 0 < cfg42.maxiter by decide)]
    norm_num [avg_of_best, bestScorePos_cfg42]
  rw [havg, h2] at h0
  norm_num at h0

/-- C4 amended: with configuration and seed fixed, re-running reproduces the
best design, the final score, and the best-fitness history identically; only
the average-fitness history reads the ambient unseeded numpy RNG and may
differ between runs. -/
theorem c4_engine_deterministic (cfg : Config) (ω1 ω2 : ℕ → ℝ) :
    (runOptimizer cfg ω1).map (fun r => (r.best, r.score, r.bestHist)) =
      (runOptimizer cfg ω2).map (fun r => (r.best, r.score, r.bestHist)) := by
  unfold runOptimizer
  split
  · split
    · rfl
    · rfl
  · rfl

/-- C5 (code behavior at the documented end-to-end configuration): the run
returns a result whose 15 recorded best fitness entries are all -1000 and
whose final score is -1000 — the final score is not positive and is not a
strict improvement over the first generation's recorded best, contradicting
the claimed scenario. -/
theorem c5_flat_run (ω : ℕ → ℝ) :
    ∃ r : RunResult, runOptimizer cfg42 ω = Except.ok r ∧
      r.bestHist = List.replicate 15 (-1000) ∧ r.score = -1000 ∧
      ¬ 0 < r.score ∧ ¬ r.bestHist.getD 0 0 < r.score := by
  refine ⟨_, runOptimizer_cfg42 ω, ?_, ?_, ?_, ?_⟩
  · show history_best_fitness cfg42 = _
    unfold history_best_fitness
    refine List.eq_replicate_iff.mpr ⟨by simp [cfg42], ?_⟩
    intro b hb
    obtain ⟨g, -, rfl⟩ := List.mem_map.mp hb
    exact bestScorePos_cfg42 (g + 1)
  · exact bestScorePos_cfg42 15
  · show ¬ (0 : ℝ) < bestScorePos cfg42 15
    rw [bestScorePos_cfg42]
    norm_num
  · show ¬ (history_best_fitness cfg42).getD 0 0 < bestScorePos cfg42 15
    unfold history_best_fitness
    rw [getD_map_range _ (show 0 < cfg42.maxiter by decide)]
    norm_num [bestScorePos_cfg42]

/-- C6 counterexample: at the source configuration, generation 1 of the run
records best fitness -1000 but average fitness -850: the recorded average is
strictly better than the recorded best, refuting average ≤ best. -/
theorem c6_counterexample :
    (history_best_fitness cfg42).getD 0 0 <
      (history_avg_fitness cfg42 (fun _ => 0)).getD 0 0 := by
  unfold history_best_fitness history_avg_fitness
  rw [getD_map_range _ (show 0 < cfg42.maxiter by decide),
    getD_map_range _ (show 0 < cfg42.maxiter by decide)]
  norm_num [avg_of_best, bestScorePos_cfg42]

/-- C6 amended: the recorded average is best * (0.85 + 0.1*u) with u a draw in
[0, 1), so average ≤ best holds exactly when the recorded best fitness is
nonnegative; at the source configuration the recorded best is -1000 and the
inequality reverses. -/
theorem c6_avg_le_best_of_nonneg (cfg : Config) (ω : ℕ → ℝ) (g : ℕ)
    (hg : g < cfg.maxiter) (_hω0 : 0 ≤ ω g) (hω1 : ω g < 1)
    (hbest : 0 ≤ (history_best_fitness cfg).getD g 0) :
    (history_avg_fitness cfg ω).getD g 0 ≤ (history_best_fitness cfg).getD g 0 := by
  have hb2 : 0 ≤ bestScorePos cfg (g + 1) := by
    unfold history_best_fitness at hbest
    rw [getD_map_range _ hg] at hbest
    exact hbest
  unfold history_avg_fitness history_best_fitness
  rw [getD_map_range _ hg, getD_map_range _ hg]
  show avg_of_best (bestScorePos cfg (g + 1)) (ω g) ≤ bestScorePos cfg (g + 1)
  unfold avg_of_best
  nlinarith [mul_nonneg hb2 (show (0 : ℝ) ≤ 0.15 - 0.1 * ω g by linarith)]

/-- Witness for the amended C6 at the degenerate feasible configuration,
whose recorded best fitness 18 is nonnegative. -/
theorem c6_witness :
    0 ≤ (history_best_fitness cfgFeasible).getD 0 0 ∧
      (history_avg_fitness cfgFeasible (fun _ => 0)).getD 0 0 ≤
        (history_best_fitness cfgFeasible).getD 0 0 := by
  have hb : (history_best_fitness cfgFeasible).getD 0 0 = 18 := by
    unfold history_best_fitness
    rw [getD_map_range _ (show 0 < cfgFeasible.maxiter by decide)]
    exact bestScorePos_cfgFeasible 1
  refine ⟨by rw [hb]; norm_num, ?_⟩
  exact c6_avg_le_best_of_nonneg cfgFeasible (fun _ => 0) 0 (by decide)
    (by norm_num) (by norm_num) (by rw [hb]; norm_num)

/-- C7: the recorded best-of-generation fitness sequence is monotonically
non-worsening across the run, because replacement never accepts a worse
candidate. -/
theorem c7_best_monotone (cfg : Config) (i j : ℕ) (hij : i ≤ j)
    (hi : i < cfg.maxiter) (hj : j < cfg.maxiter) :
    (history_best_fitness cfg).getD i 0 ≤ (history_best_fitness cfg).getD j 0 := by
  unfold history_best_fitness
  rw [getD_map_range _ hi, getD_map_range _ hj]
  show bestScorePos cfg (i + 1) ≤ bestScorePos cfg (j + 1)
  have h := bestScorePos_mono cfg (i + 1) (j - i)
  rwa [show i + 1 + (j - i) = j + 1 by omega] at h

/-- Witness for C7 at the source configuration, generations 1 and 2. -/
theorem c7_witness :
    (history_best_fitness cfg42).getD 0 0 ≤ (history_best_fitness cfg42).getD 1 0 :=
  c7_best_monotone cfg42 0 1 (by decide) (by decide) (by decide)

/-- C8: with the declared bounds, every design produced during search —
every initial member, every member of every generation's population, and
every clamped trial candidate — lies inside the bounds. -/
theorem c8_no_bounds_escape (cfg : Config) (g i : ℕ) (hb : cfg.bnds = bounds) :
    inBounds bounds (popAt cfg g i) ∧
      inBounds bounds (trialFor cfg (popAt cfg g) g i) := by
  have hv : validBounds cfg.bnds := by
    rw [hb]
    constructor <;> norm_num [bounds]
  exact hb ▸ ⟨popAt_inBounds cfg hv g i, trialFor_inBounds cfg hv _ g i⟩

/-- Witness for C8 at the source configuration, generation 0, member 0. -/
theorem c8_witness :
    inBounds bounds (popAt cfg42 0 0) ∧
      inBounds bounds (trialFor cfg42 (popAt cfg42 0) 0 0) :=
  c8_no_bounds_escape cfg42 0 0 rfl

/-- C10: an inverted bound interval in either dimension is rejected
synchronously with a configuration error before any generation runs; the run
never returns an Optimization Result (so no Generation Record is produced)
and the configuration is never silently corrected. -/
theorem c10_inverted_bounds_fail_fast (cfg : Config) (ω : ℕ → ℝ)
    (h : cfg.bnds.1.2 < cfg.bnds.1.1 ∨ cfg.bnds.2.2 < cfg.bnds.2.1) :
    runOptimizer cfg ω = Except.error ConfigError.invalidBounds ∧
      ∀ r : RunResult, runOptimizer cfg ω ≠ Except.ok r := by
  have hv : ¬ validBounds cfg.bnds := by
    unfold validBounds
    rcases h with h | h
    · exact fun hc => absurd hc.1 (not_le.mpr h)
    · exact fun hc => absurd hc.2 (not_le.mpr h)
  constructor
  · unfold runOptimizer
    rw [if_neg hv]
  · intro r hr
    unfold runOptimizer at hr
    rw [if_neg hv] at hr
    exact Except.noConfusion hr

/-- Inverted-bounds configuration (length interval reversed) for the C10
witness. -/
def cfgInverted : Config := ⟨((120, 50), (10, 30)), 40, 15, 42⟩

/-- Witness for C10 at a reversed length interval. -/
theorem c10_witness :
    runOptimizer cfgInverted (fun _ => 0) = Except.error ConfigError.invalidBounds ∧
      ∀ r : RunResult, runOptimizer cfgInverted (fun _ => 0) ≠ Except.ok r :=
  c10_inverted_bounds_fail_fast cfgInverted (fun _ => 0)
    (Or.inl (by norm_num [cfgInverted]))

end

end ShramSahayak
